import Mathlib

/-!
Verification of the sudoku statistics scripts.

The embedded code:
* `RunningStat` — src/SudokuCore/src/us/blanshard/sudoku/stats/stats.py
* core summarizer — src/SudokuCore/src/us/blanshard/sudoku/stats/summarize.py
* generator summarizer — src/SudokuStats/src/us/blanshard/sudoku/stats/summarize.py
* improper summarizer — src/stats/src/main/java/us/blanshard/sudoku/stats/improper.py

Python floats are modelled by exact rationals (ℚ); `math.sqrt` by `Real.sqrt`.
Fallible operations (field access, `int()` / `float()` conversion, list
indexing) return `Option`; a `none` result models the run aborting with an
uncaught exception before any output is written.
-/

namespace Sudoku

/-- Embedding of `RunningStat` (stats.py lines 18–51): fields `k`, `m`, `s`. -/
structure RunningStat where
  k : Nat
  m : ℚ
  s : ℚ
deriving Repr, DecidableEq

/-- A fresh `RunningStat()`: `k = 0`, `m = 0.0`, `s = 0.0` (stats.py 22–25). -/
def RunningStat.init : RunningStat := ⟨0, 0, 0⟩

/-- `append` (stats.py 37–42): `k += 1; m = prev_m + (x-prev_m)/k;
s += (x-prev_m)*(x-m)`, with the division by the updated `k = prev_k + 1`
and `s` using the updated `m`. -/
def RunningStat.append (rs : RunningStat) (x : ℚ) : RunningStat :=
  ⟨rs.k + 1,
   rs.m + (x - rs.m) / ((rs.k : ℚ) + 1),
   rs.s + (x - rs.m) * (x - (rs.m + (x - rs.m) / ((rs.k : ℚ) + 1)))⟩

/-- `__len__` (stats.py 32–35). -/
def RunningStat.len (rs : RunningStat) : Nat := rs.k

/-- `mean` (stats.py 44–45). -/
def RunningStat.mean (rs : RunningStat) : ℚ := rs.m

/-- `variance` (stats.py 47–48): `s / (k - 1) if k > 1 else 0.0`. -/
def RunningStat.variance (rs : RunningStat) : ℚ :=
  if 1 < rs.k then rs.s / ((rs.k : ℚ) - 1) else 0

/-- `standard_deviation` (stats.py 50–51): `math.sqrt(variance())`. -/
noncomputable def RunningStat.standard_deviation (rs : RunningStat) : ℝ :=
  Real.sqrt (rs.variance : ℝ)

/-- Feeding a list of values to a `RunningStat` one `append` at a time. -/
def RunningStat.appendList (rs : RunningStat) (xs : List ℚ) : RunningStat :=
  xs.foldl RunningStat.append rs

/-! ### Helper lemmas about `RunningStat` -/

lemma RunningStat.append_k (rs : RunningStat) (x : ℚ) : (rs.append x).k = rs.k + 1 := rfl

lemma RunningStat.append_m (rs : RunningStat) (x : ℚ) :
    (rs.append x).m = rs.m + (x - rs.m) / ((rs.k : ℚ) + 1) := rfl

lemma RunningStat.append_s (rs : RunningStat) (x : ℚ) :
    (rs.append x).s
      = rs.s + (x - rs.m) * (x - (rs.m + (x - rs.m) / ((rs.k : ℚ) + 1))) := rfl

lemma RunningStat.appendList_append (rs : RunningStat) (xs : List ℚ) (x : ℚ) :
    rs.appendList (xs ++ [x]) = (rs.appendList xs).append x := by
  simp [RunningStat.appendList]

lemma RunningStat.appendList_k (rs : RunningStat) (xs : List ℚ) :
    (rs.appendList xs).k = rs.k + xs.length := by
  induction xs using List.reverseRecOn with
  | nil => simp [RunningStat.appendList]
  | append_singleton ys y ih =>
      rw [RunningStat.appendList_append, RunningStat.append_k, ih]
      simp
      omega

/-- Welford invariant: after feeding `xs` to a fresh stat, `m` is the mean and
`s` is `Σ x² - (Σ x)² / n` (both read `0` for the empty list, matching ℚ's
`x / 0 = 0`). -/
lemma RunningStat.welford (xs : List ℚ) :
    (RunningStat.init.appendList xs).k = xs.length ∧
    (RunningStat.init.appendList xs).m = xs.sum / (xs.length : ℚ) ∧
    (RunningStat.init.appendList xs).s
      = (xs.map (fun x => x ^ 2)).sum - xs.sum ^ 2 / (xs.length : ℚ) := by
  induction xs using List.reverseRecOn with
  | nil => simp [RunningStat.appendList, RunningStat.init]
  | append_singleton ys y ih =>
      obtain ⟨hk, hm, hs⟩ := ih
      rw [RunningStat.appendList_append]
      refine ⟨by rw [RunningStat.append_k, hk]; simp, ?_, ?_⟩
      · rw [RunningStat.append_m, hm, hk]
        rcases Nat.eq_zero_or_pos ys.length with h0 | hpos
        · rw [List.length_eq_zero] at h0
          subst h0; simp
        · have hne : ((ys.length : ℚ)) ≠ 0 := by positivity
          have hne1 : ((ys.length : ℚ) + 1) ≠ 0 := by positivity
          simp only [List.sum_append, List.length_append, List.sum_cons,
            List.sum_nil, List.length_cons, List.length_nil]
          push_cast
          field_simp
          ring
      · rw [RunningStat.append_s, hs, hm, hk]
        rcases Nat.eq_zero_or_pos ys.length with h0 | hpos
        · rw [List.length_eq_zero] at h0
          subst h0; simp
        · have hne : ((ys.length : ℚ)) ≠ 0 := by positivity
          have hne1 : ((ys.length : ℚ) + 1) ≠ 0 := by positivity
          simp only [List.sum_append, List.length_append, List.map_append,
            List.sum_cons, List.sum_nil, List.length_cons, List.length_nil,
            List.map_cons, List.map_nil]
          push_cast
          field_simp
          ring

/-- Each `append` adds `(x - prev_m) * (x - m) = (x - prev_m)² · k/(k+1) ≥ 0` to `s`. -/
lemma RunningStat.s_nonneg_step (rs : RunningStat) (x : ℚ) (h : 0 ≤ rs.s) :
    0 ≤ (rs.append x).s := by
  have hne : ((rs.k : ℚ) + 1) ≠ 0 := by positivity
  have key : (rs.append x).s
      = rs.s + (x - rs.m) ^ 2 * (rs.k : ℚ) / ((rs.k : ℚ) + 1) := by
    rw [RunningStat.append_s]
    field_simp
    ring
  rw [key]
  positivity

/-- For every reachable state, `s ≥ 0`. -/
lemma RunningStat.s_nonneg (xs : List ℚ) : 0 ≤ (RunningStat.init.appendList xs).s := by
  induction xs using List.reverseRecOn with
  | nil => simp [RunningStat.appendList, RunningStat.init]
  | append_singleton ys y ih =>
      rw [RunningStat.appendList_append]
      exact RunningStat.s_nonneg_step _ y ih

/-- For every reachable state, `variance ≥ 0`. -/
lemma RunningStat.variance_nonneg (xs : List ℚ) :
    0 ≤ (RunningStat.init.appendList xs).variance := by
  unfold RunningStat.variance
  split
  · rename_i h
    apply div_nonneg (RunningStat.s_nonneg xs)
    have : (1 : ℚ) ≤ ((RunningStat.init.appendList xs).k : ℚ) := by exact_mod_cast h.le
    linarith
  · exact le_refl 0

/-- Sum of squared deviations about an arbitrary point, expanded. -/
lemma sum_sq_dev (xs : List ℚ) (c : ℚ) :
    (xs.map (fun x => (x - c) ^ 2)).sum
      = (xs.map (fun x => x ^ 2)).sum - 2 * c * xs.sum + (xs.length : ℚ) * c ^ 2 := by
  induction xs with
  | nil => simp
  | cons a t ih =>
      simp only [List.map_cons, List.sum_cons, List.length_cons, ih]
      push_cast
      ring

/-! ### Tab-delimited fields

A body line is modelled as its list of tab-separated fields.  Each field is
abstracted by how Python 2's `int()` and `float()` treat its text: a
non-numeric token, an integer literal, or a non-integer numeric literal. -/

/-- One tab-delimited field of a body line. -/
inductive Field where
  | str : String → Field
  | int : Int → Field
  | flt : ℚ → Field
deriving Repr, DecidableEq

/-- `int(field)`: succeeds exactly on integer literals (`int("150.0")` and
`int("x")` raise ValueError). -/
def Field.pyInt : Field → Option Int
  | .int n => some n
  | _ => none

/-- `float(field)`: succeeds on integer and float literals. -/
def Field.pyFloat : Field → Option ℚ
  | .int n => some (n : ℚ)
  | .flt q => some q
  | .str _ => none

/-! ### Container helpers -/

/-- Replace the element at index `n` by `f` applied to it (no-op out of range). -/
def updateNth {α : Type} (l : List α) (n : Nat) (f : α → α) : List α :=
  match l, n with
  | [], _ => []
  | a :: t, 0 => f a :: t
  | a :: t, n + 1 => a :: updateNth t n f

/-- `defaultdict` update: apply `f` to the value at `key`, inserting `f d`
(where `d` is the factory default) when the key is absent. -/
def updAssoc {κ α : Type} [DecidableEq κ] (d : α) (l : List (κ × α)) (key : κ) (f : α → α) :
    List (κ × α) :=
  match l with
  | [] => [(key, f d)]
  | (k', v) :: t => if k' = key then (k', f v) :: t else (k', v) :: updAssoc d t key f

/-- `defaultdict` update whose body may raise. -/
def updAssocO {κ α : Type} [DecidableEq κ] (d : α) (l : List (κ × α)) (key : κ)
    (f : α → Option α) : Option (List (κ × α)) :=
  match l with
  | [] => match f d with
    | none => none
    | some v => some [(key, v)]
  | (k', v) :: t =>
    if k' = key then
      match f v with
      | none => none
      | some v' => some ((k', v') :: t)
    else
      match updAssocO d t key f with
      | none => none
      | some t' => some ((k', v) :: t')

/-- Option-valued fold, modelling a Python loop whose body may raise. -/
def foldMO {σ α : Type} (f : σ → α → Option σ) : σ → List α → Option σ
  | s, [] => some s
  | s, a :: t => match f s a with
    | none => none
    | some s' => foldMO f s' t

/-- Option-valued map, modelling a list comprehension whose body may raise. -/
def mapMO {α β : Type} (f : α → Option β) : List α → Option (List β)
  | [] => some []
  | a :: t => match f a with
    | none => none
    | some b => match mapMO f t with
      | none => none
      | some r => some (b :: r)

/-- Python list mutation at a possibly negative index: wraps once for
`-len ≤ i < 0`, raises IndexError otherwise when out of range. -/
def pyModify {α : Type} (l : List α) (i : Int) (f : α → α) : Option (List α) :=
  if 0 ≤ i ∧ i < (l.length : Int) then some (updateNth l i.toNat f)
  else if -(l.length : Int) ≤ i ∧ i < 0 then some (updateNth l (l.length - (-i).toNat) f)
  else none

/-! ### The core summarizer — SudokuCore summarize.py -/

/-- One leaf of `detailed[n][num_solutions]` (SudokuCore summarize.py 41–44). -/
structure Detail where
  steps : RunningStat
  per_step : RunningStat
  overall : RunningStat
  by_steps : List (Int × RunningStat)
deriving Repr, DecidableEq

/-- The defaultdict factory value for `detailed[n][num_solutions]`. -/
def Detail.init : Detail := ⟨.init, .init, .init, []⟩

/-- The accumulator state of `SummarizeLines` (SudokuCore summarize.py 40–48). -/
structure CoreState where
  detailed : List (List (Int × Detail))
  steps : List RunningStat
  per_step : List RunningStat
  total : List RunningStat
deriving Repr, DecidableEq

/-- The state as initialised for `nstrategies` strategies. -/
def initCore (nstrategies : Nat) : CoreState :=
  ⟨List.replicate nstrategies [], List.replicate nstrategies .init,
   List.replicate nstrategies .init, List.replicate nstrategies .init⟩

/-- `micros/num_steps if num_steps > 0 else micros` (SudokuCore summarize.py 49). -/
def microsPerStep (num_steps : Int) (micros : ℚ) : ℚ :=
  if 0 < num_steps then micros / (num_steps : ℚ) else micros

/-- The four appends fired into the `detailed[n][num_solutions]` leaf for one
record (SudokuCore summarize.py 50–53). -/
def Detail.observe (d : Detail) (num_steps : Int) (micros mps : ℚ) : Detail :=
  { steps := d.steps.append (num_steps : ℚ)
    per_step := d.per_step.append mps
    overall := d.overall.append micros
    by_steps := updAssoc RunningStat.init d.by_steps num_steps (fun rs => rs.append micros) }

/-- Body of `for n in range(nstrategies)` (SudokuCore summarize.py 45–54):
reads `fields[2n+5]` and `fields[2n+6]`, then appends into every grouping. -/
def strategyStep (fields : List Field) (sol : Int) (st : CoreState) (n : Nat) :
    Option CoreState :=
  match fields.get? (2 * n + 5) with
  | none => none
  | some nsF => match nsF.pyInt with
    | none => none
    | some num_steps => match fields.get? (2 * n + 6) with
      | none => none
      | some mF => match mF.pyFloat with
        | none => none
        | some micros =>
          some { detailed := updateNth st.detailed n
                   (fun a => updAssoc Detail.init a sol
                     (fun d => d.observe num_steps micros (microsPerStep num_steps micros)))
                 steps := updateNth st.steps n (fun rs => rs.append (num_steps : ℚ))
                 per_step := updateNth st.per_step n
                   (fun rs => rs.append (microsPerStep num_steps micros))
                 total := updateNth st.total n (fun rs => rs.append micros) }

/-- One body line of the core summarizer (SudokuCore summarize.py 40–54):
`num_solutions = int(fields[4])`, then the strategy loop. -/
def coreLine (nstrategies : Nat) (st : CoreState) (fields : List Field) :
    Option CoreState :=
  match fields.get? 4 with
  | none => none
  | some f => match f.pyInt with
    | none => none
    | some sol => foldMO (strategyStep fields sol) st (List.range nstrategies)

/-- The whole body loop of the core `SummarizeLines`. -/
def coreLines (nstrategies : Nat) (st : CoreState) (body : List (List Field)) :
    Option CoreState :=
  foldMO (coreLine nstrategies) st body

/-- The per-strategy document built by `ConstructData.ForStrategy`
(SudokuCore summarize.py 64–80), display name and formatting omitted. -/
structure StratDoc where
  steps : RunningStat
  per_step : RunningStat
  total : RunningStat
  by_solutions : List (Int × Detail)
deriving Repr, DecidableEq

/-- `ForStrategy(n)` (SudokuCore summarize.py 64–75). -/
def ForStrategy (st : CoreState) (n : Nat) : StratDoc :=
  ⟨st.steps.getD n .init, st.per_step.getD n .init, st.total.getD n .init,
   st.detailed.getD n []⟩

/-- `[ForStrategy(i) for i in range(nstrategies)]` (SudokuCore summarize.py 78). -/
def ConstructStrategies (nstrategies : Nat) (st : CoreState) : List StratDoc :=
  (List.range nstrategies).map (ForStrategy st)

/-! ### The generator summarizer — SudokuStats summarize.py -/

/-- `Stat()` (SudokuStats summarize.py 32): a time engine and a clues engine. -/
structure GenPair where
  time : RunningStat
  clues : RunningStat
deriving Repr, DecidableEq

def GenPair.init : GenPair := ⟨.init, .init⟩

/-- `AllStats()` (SudokuStats summarize.py 34). -/
structure GenAll where
  overall : GenPair
  by_generator : List GenPair
deriving Repr, DecidableEq

def GenAll.init (ngenerators : Nat) : GenAll :=
  ⟨.init, List.replicate ngenerators .init⟩

/-- The accumulator state of the generator `SummarizeLines` (SudokuStats 35–36). -/
structure GenState where
  symmetries : List (Field × GenAll)
  generators : List GenAll
deriving Repr, DecidableEq

def initGen (ngenerators : Nat) : GenState :=
  ⟨[], List.replicate ngenerators (GenAll.init ngenerators)⟩

/-- Indices `start, start+2, start+4, … < stop` — Python `range(start, stop, 2)`. -/
def range2 (start stop : Nat) : List Nat :=
  (List.range ((stop - start + 1) / 2)).map (fun j => start + 2 * j)

/-- `[float(fields[n]) / 1000.0 for n in range(3, len(fields), 2)]`
(SudokuStats summarize.py 40). -/
def parseTimes (fields : List Field) : Option (List ℚ) :=
  mapMO (fun i => match fields.get? i with
    | none => none
    | some f => match f.pyFloat with
      | none => none
      | some v => some (v / 1000)) (range2 3 fields.length)

/-- `[int(fields[n]) for n in range(2, len(fields), 2)]` (SudokuStats 41). -/
def parseClues (fields : List Field) : Option (List Int) :=
  mapMO (fun i => match fields.get? i with
    | none => none
    | some f => f.pyInt) (range2 2 fields.length)

/-- Body of `for m in range(ngenerators)` (SudokuStats summarize.py 52–54):
appends `time[n] - time[m]` and `clues[n] - clues[m]` into cell `(n, m)`. -/
def genPairStep (time : List ℚ) (clues : List Int) (tn : ℚ) (cn : Int)
    (bg : List GenPair) (m : Nat) : Option (List GenPair) :=
  match time.get? m, clues.get? m with
  | some tm, some cm =>
      some (updateNth bg m (fun p =>
        ⟨p.time.append (tn - tm), p.clues.append ((cn - cm : Int) : ℚ)⟩))
  | _, _ => none

/-- Body of `for n in range(ngenerators)` (SudokuStats summarize.py 43–54). -/
def genStep (sym : Field) (time : List ℚ) (clues : List Int) (g : Nat)
    (st : GenState) (n : Nat) : Option GenState :=
  match time.get? n, clues.get? n with
  | some tn, some cn =>
    match foldMO (genPairStep time clues tn cn)
        ((st.generators.getD n (GenAll.init g)).by_generator) (List.range g) with
    | none => none
    | some bg' =>
      some { symmetries := updAssoc (GenAll.init g) st.symmetries sym (fun a =>
               ⟨⟨a.overall.time.append tn, a.overall.clues.append (cn : ℚ)⟩,
                updateNth a.by_generator n (fun p =>
                  ⟨p.time.append tn, p.clues.append (cn : ℚ)⟩)⟩)
             generators := updateNth st.generators n (fun a =>
               ⟨⟨a.overall.time.append tn, a.overall.clues.append (cn : ℚ)⟩, bg'⟩) }
  | _, _ => none

/-- One body line of the generator summarizer (SudokuStats summarize.py 37–54). -/
def genLine (g : Nat) (st : GenState) (fields : List Field) : Option GenState :=
  match fields.get? 0 with
  | none => none
  | some sym =>
    match parseTimes fields, parseClues fields with
    | some time, some clues => foldMO (genStep sym time clues g) st (List.range g)
    | _, _ => none

/-- The whole body loop of the generator `SummarizeLines`. -/
def genLines (g : Nat) (st : GenState) (body : List (List Field)) : Option GenState :=
  foldMO (genLine g) st body

/-! ### The improper summarizer — stats improper.py -/

/-- `Stat()` (improper.py 27): a solns engine and a holes engine. -/
structure ImpStat where
  solns : RunningStat
  holes : RunningStat
deriving Repr, DecidableEq

def ImpStat.init : ImpStat := ⟨.init, .init⟩

/-- `AllStats()` (improper.py 29): `by_solns` is an eager list of `max_solns`
fresh `Stat()`s. -/
structure ImpAll where
  overall : ImpStat
  by_solns : List ImpStat
deriving Repr, DecidableEq

def ImpAll.init (max_solns : Nat) : ImpAll := ⟨.init, List.replicate max_solns .init⟩

/-- The accumulator state of the improper `SummarizeLines` (improper.py 30–31). -/
structure ImpState where
  all : ImpAll
  symmetries : List (Field × ImpAll)
deriving Repr, DecidableEq

def initImp (max_solns : Nat) : ImpState := ⟨ImpAll.init max_solns, []⟩

/-- The two appends into one `Stat()` leaf (improper.py 39–46). -/
def ImpStat.observe (st : ImpStat) (solns holes : Int) : ImpStat :=
  ⟨st.solns.append (solns : ℚ), st.holes.append (holes : ℚ)⟩

/-- The appends into one `AllStats()`: overall, plus the `by_solns` bucket at
Python index `solns - 1` (improper.py 37, 39–46). -/
def ImpAll.observe (a : ImpAll) (solns holes : Int) : Option ImpAll :=
  match pyModify a.by_solns (solns - 1) (fun s => s.observe solns holes) with
  | none => none
  | some bs => some ⟨a.overall.observe solns holes, bs⟩

/-- One body line of the improper summarizer (improper.py 32–46). -/
def impLine (max_solns : Nat) (st : ImpState) (fields : List Field) : Option ImpState :=
  match fields.get? 0, fields.get? 1, fields.get? 2 with
  | some sym, some f1, some f2 =>
    match f1.pyInt, f2.pyInt with
    | some solns, some holes =>
      match st.all.observe solns holes,
          updAssocO (ImpAll.init max_solns) st.symmetries sym
            (fun a => a.observe solns holes) with
      | some all', some syms' => some ⟨all', syms'⟩
      | _, _ => none
    | _, _ => none
  | _, _, _ => none

/-- The whole body loop of the improper `SummarizeLines`. -/
def impLines (max_solns : Nat) (st : ImpState) (body : List (List Field)) :
    Option ImpState :=
  foldMO (impLine max_solns) st body


/-! ### Additional `RunningStat` lemmas -/

/-- `s` never decreases under `append`. -/
lemma RunningStat.le_append_s (rs : RunningStat) (x : ℚ) : rs.s ≤ (rs.append x).s := by
  have hne : ((rs.k : ℚ) + 1) ≠ 0 := by positivity
  have key : (rs.append x).s
      = rs.s + (x - rs.m) ^ 2 * (rs.k : ℚ) / ((rs.k : ℚ) + 1) := by
    rw [RunningStat.append_s]
    field_simp
    ring
  rw [key]
  have : 0 ≤ (x - rs.m) ^ 2 * (rs.k : ℚ) / ((rs.k : ℚ) + 1) := by positivity
  linarith

/-! ### Claim theorems: the statistics engine -/

/-- **C1.** For every finite sequence of `n` values fed to a fresh `RunningStat`
via `append`: `len()` is `n`; `mean()` is the arithmetic mean (exactly, in the
exact-rational model); `variance()` is the sample variance with divisor `n-1`
for `n ≥ 2` and exactly `0` for `n ≤ 1`; `standard_deviation()` is the
non-negative square root of `variance()`.  For the observations `10, 20`:
`mean() = 15`, `variance() = 50`, and `standard_deviation()` lies strictly
between `7.071` and `7.0711` (≈ 7.0711). -/
theorem C1_runningStat_correct (xs : List ℚ) :
    (RunningStat.init.appendList xs).len = xs.length ∧
    (RunningStat.init.appendList xs).mean = xs.sum / (xs.length : ℚ) ∧
    (2 ≤ xs.length →
      (RunningStat.init.appendList xs).variance
        = (xs.map (fun x => (x - xs.sum / (xs.length : ℚ)) ^ 2)).sum
            / ((xs.length : ℚ) - 1)) ∧
    (xs.length ≤ 1 → (RunningStat.init.appendList xs).variance = 0) ∧
    0 ≤ (RunningStat.init.appendList xs).standard_deviation ∧
    (RunningStat.init.appendList xs).standard_deviation ^ 2
      = ((RunningStat.init.appendList xs).variance : ℝ) ∧
    (RunningStat.init.appendList [10, 20]).mean = 15 ∧
    (RunningStat.init.appendList [10, 20]).variance = 50 ∧
    (7071 / 1000 : ℝ) < (RunningStat.init.appendList [10, 20]).standard_deviation ∧
    (RunningStat.init.appendList [10, 20]).standard_deviation < 70711 / 10000 := by
  obtain ⟨hk, hm, hs⟩ := RunningStat.welford xs
  have hv50 : (RunningStat.init.appendList [10, 20]).variance = 50 := by
    norm_num [RunningStat.appendList, RunningStat.append, RunningStat.variance,
      RunningStat.init]
  have hcast : (((RunningStat.init.appendList [10, 20]).variance : ℚ) : ℝ) = 50 := by
    rw [hv50]; norm_num
  refine ⟨hk, hm, ?_, ?_, Real.sqrt_nonneg _, ?_, ?_, hv50, ?_, ?_⟩
  · intro h2
    have hpos : 0 < xs.length := by omega
    have hne : ((xs.length : ℚ)) ≠ 0 := by positivity
    have hk2 : 1 < (RunningStat.init.appendList xs).k := by omega
    unfold RunningStat.variance
    rw [if_pos hk2, hs, hk, sum_sq_dev]
    congr 1
    field_simp
    ring
  · intro h1
    have hk1 : ¬ 1 < (RunningStat.init.appendList xs).k := by omega
    unfold RunningStat.variance
    rw [if_neg hk1]
  · exact Real.sq_sqrt (by exact_mod_cast RunningStat.variance_nonneg xs)
  · norm_num [RunningStat.appendList, RunningStat.append, RunningStat.mean,
      RunningStat.init]
  · unfold RunningStat.standard_deviation
    rw [hcast]
    exact (Real.lt_sqrt (by norm_num)).2 (by norm_num)
  · unfold RunningStat.standard_deviation
    rw [hcast]
    exact (Real.sqrt_lt' (by norm_num)).2 (by norm_num)

/-- Witness for C1 at the concrete input `[10, 20, 30]`: the sample variance
with divisor `n - 1 = 2`. -/
theorem C1_runningStat_correct_witness :
    (RunningStat.init.appendList [10, 20, 30]).variance
      = (([10, 20, 30] : List ℚ).map
          (fun x => (x - ([10, 20, 30] : List ℚ).sum
              / ((([10, 20, 30] : List ℚ).length : Nat) : ℚ)) ^ 2)).sum
        / (((([10, 20, 30] : List ℚ).length : Nat) : ℚ) - 1) :=
  (C1_runningStat_correct [10, 20, 30]).2.2.1 (by norm_num)

/-- **C2.** Invariants of `RunningStat` over any reachable state: the
accumulated sum of squared deviations `s` is non-negative (each increment
`(x - prev_m) * (x - m)` is non-negative, so `s` never decreases); with count
`0`, `mean()` and `variance()` are `0`; with count `1`, `variance()` is `0`.
(The count `k` is a `Nat`, hence non-negative by type.) -/
theorem C2_runningStat_invariants (xs : List ℚ) :
    0 ≤ (RunningStat.init.appendList xs).s ∧
    (∀ x : ℚ,
      (RunningStat.init.appendList xs).s ≤ ((RunningStat.init.appendList xs).append x).s) ∧
    ((RunningStat.init.appendList xs).k = 0 →
      (RunningStat.init.appendList xs).mean = 0 ∧
      (RunningStat.init.appendList xs).variance = 0) ∧
    ((RunningStat.init.appendList xs).k = 1 →
      (RunningStat.init.appendList xs).variance = 0) := by
  have hk : (RunningStat.init.appendList xs).k = xs.length := by
    rw [RunningStat.appendList_k]
    simp [RunningStat.init]
  refine ⟨RunningStat.s_nonneg xs, fun x => RunningStat.le_append_s _ x, ?_, ?_⟩
  · intro h0
    have hlen : xs.length = 0 := by omega
    rw [List.length_eq_zero] at hlen
    subst hlen
    exact ⟨rfl, rfl⟩
  · intro h1
    have hk1 : ¬ 1 < (RunningStat.init.appendList xs).k := by omega
    unfold RunningStat.variance
    rw [if_neg hk1]

/-- Witness for C2 at the concrete input `[5]`: one observation, variance 0. -/
theorem C2_runningStat_invariants_witness :
    (RunningStat.init.appendList [(5 : ℚ)]).variance = 0 :=
  (C2_runningStat_invariants [5]).2.2.2 rfl


/-! ### Container lemmas -/

lemma updateNth_length {α : Type} (l : List α) (n : Nat) (f : α → α) :
    (updateNth l n f).length = l.length := by
  induction l generalizing n with
  | nil => rfl
  | cons a t ih =>
      cases n with
      | zero => rfl
      | succ n => simpa [updateNth] using ih n

lemma getD_updateNth_self {α : Type} (l : List α) (n : Nat) (f : α → α) (d : α)
    (h : n < l.length) : (updateNth l n f).getD n d = f (l.getD n d) := by
  induction l generalizing n with
  | nil => simp at h
  | cons a t ih =>
      cases n with
      | zero => simp [updateNth]
      | succ n =>
          simp only [updateNth, List.getD_cons_succ]
          exact ih n (by simpa using h)

lemma getD_updateNth_ne {α : Type} (l : List α) (n i : Nat) (f : α → α) (d : α)
    (h : i ≠ n) : (updateNth l n f).getD i d = l.getD i d := by
  induction l generalizing n i with
  | nil => rfl
  | cons a t ih =>
      cases n with
      | zero =>
          cases i with
          | zero => exact absurd rfl h
          | succ i => simp [updateNth]
      | succ n =>
          cases i with
          | zero => simp [updateNth]
          | succ i =>
              simp only [updateNth, List.getD_cons_succ]
              exact ih n i (by omega)

lemma getD_replicate' {α : Type} (n i : Nat) (a : α) :
    (List.replicate n a).getD i a = a := by
  induction n generalizing i with
  | zero => rfl
  | succ n ih =>
      cases i with
      | zero => rfl
      | succ i => simp [List.replicate]

lemma foldMO_nil {σ α : Type} (f : σ → α → Option σ) (s : σ) : foldMO f s [] = some s := rfl

lemma foldMO_append {σ α : Type} (f : σ → α → Option σ) (s : σ) (l1 l2 : List α) :
    foldMO f s (l1 ++ l2) = (foldMO f s l1).bind (fun s' => foldMO f s' l2) := by
  induction l1 generalizing s with
  | nil => simp [foldMO]
  | cons a t ih =>
      simp only [List.cons_append, foldMO]
      cases f s a with
      | none => simp
      | some s' => simpa using ih s'

lemma foldMO_inv_mem {σ α : Type} (P : σ → Prop) (f : σ → α → Option σ) :
    ∀ (l : List α), (∀ s a s', a ∈ l → f s a = some s' → P s → P s') →
      ∀ s s', foldMO f s l = some s' → P s → P s' := by
  intro l
  induction l with
  | nil =>
      intro _ s s' h hp
      simp only [foldMO] at h
      cases h
      exact hp
  | cons a t ih =>
      intro hf s s' h hp
      simp only [foldMO] at h
      cases hfa : f s a with
      | none => rw [hfa] at h; cases h
      | some s1 =>
          rw [hfa] at h
          exact ih (fun s a' s' ha => hf s a' s' (List.mem_cons_of_mem _ ha)) s1 s' h
            (hf s a s1 (List.mem_cons_self _ _) hfa hp)

lemma foldMO_inv_count {σ α : Type} (P : σ → Nat → Prop) (f : σ → α → Option σ)
    (hf : ∀ s a s' c, f s a = some s' → P s c → P s' (c + 1)) :
    ∀ (l : List α) (s s' : σ) (c : Nat), foldMO f s l = some s' → P s c →
      P s' (c + l.length) := by
  intro l
  induction l with
  | nil =>
      intro s s' c h hp
      simp only [foldMO] at h
      cases h
      simpa using hp
  | cons a t ih =>
      intro s s' c h hp
      simp only [foldMO] at h
      cases hfa : f s a with
      | none => rw [hfa] at h; cases h
      | some s1 =>
          rw [hfa] at h
          have := ih s1 s' (c + 1) h (hf s a s1 c hfa hp)
          simpa [Nat.add_comm, Nat.add_assoc, Nat.add_left_comm] using this

lemma sum_updAssoc_nat {κ α : Type} [DecidableEq κ] (d : α) (l : List (κ × α)) (key : κ)
    (f : α → α) (g : α → Nat) (hf : ∀ a, g (f a) = g a + 1) (hd : g d = 0) :
    ((updAssoc d l key f).map (fun p => g p.2)).sum = (l.map (fun p => g p.2)).sum + 1 := by
  induction l with
  | nil => simp [updAssoc, hf, hd]
  | cons p t ih =>
      rcases p with ⟨k', v⟩
      by_cases hk : k' = key
      · simp only [updAssoc, if_pos hk, List.map_cons, List.sum_cons, hf]
        omega
      · simp only [updAssoc, if_neg hk, List.map_cons, List.sum_cons, ih]
        omega


/-! ### Field-count lemmas for the core summarizer -/

/-- When the line is too short for strategy `n`'s `micros` column
(index `2n+6`), the strategy step raises. -/
lemma strategyStep_short (fields : List Field) (sol : Int) (st : CoreState) (n : Nat)
    (h : fields.length ≤ 2 * n + 6) : strategyStep fields sol st n = none := by
  have hget : fields[2 * n + 6]? = none := by
    rw [← List.get?_eq_getElem?]
    exact List.get?_eq_none.2 h
  unfold strategyStep
  cases h5 : fields.get? (2 * n + 5) with
  | none => rfl
  | some f =>
      cases hp : f.pyInt with
      | none => simp [hp]
      | some ns => simp [hp, hget]

/-- A body line with fewer tab-delimited fields than the schema requires
(`5 + 2·nstrategies`) makes the core summarizer raise. -/
lemma coreLine_short (nstrategies : Nat) (st : CoreState) (fields : List Field)
    (hn : 1 ≤ nstrategies) (h : fields.length < 5 + 2 * nstrategies) :
    coreLine nstrategies st fields = none := by
  unfold coreLine
  cases h4 : fields.get? 4 with
  | none => rfl
  | some f =>
      cases hp : f.pyInt with
      | none => simp [hp]
      | some sol =>
          obtain ⟨m, rfl⟩ : ∃ m, nstrategies = m + 1 := ⟨nstrategies - 1, by omega⟩
          simp only [hp, List.range_succ, foldMO_append]
          have hlast : ∀ s : CoreState, strategyStep fields sol s m = none := fun s =>
            strategyStep_short fields sol s m (by omega)
          cases foldMO (strategyStep fields sol) st (List.range m) with
          | none => rfl
          | some s1 => simp [foldMO, hlast s1]


/-! ### Claim theorems: field counts and the core summarizer -/

/-- **C3 (counterexample).** The claim says every body line whose field count
differs from the schema's exact requirement (`5 + 2·nstrategies`) fails with a
parse error.  This is false for lines with *extra* fields: with one strategy
(required count 7), a well-formed 8-field line is accepted and summarized
without any error. -/
theorem C3_extra_fields_accepted :
    (coreLine 1 (initCore 1)
      [.str "x", .int 1, .int 2, .int 3, .int 5, .int 7, .flt 150, .int 99]).isSome
      = true := rfl

/-- **C3 (amended).** Every body line with *fewer* tab-delimited fields than the
schema requires (`5 + 2·nstrategies`) — in particular one with one fewer field —
makes the run abort before producing any output (`none`); lines with extra
fields, however, are silently accepted (see the counterexample). -/
theorem C3_short_line_aborts (nstrategies : Nat) (st : CoreState) (fields : List Field)
    (hn : 1 ≤ nstrategies) (h : fields.length < 5 + 2 * nstrategies) :
    coreLine nstrategies st fields = none :=
  coreLine_short nstrategies st fields hn h

/-- Witness for C3 at a concrete 6-field line with one strategy (7 required). -/
theorem C3_short_line_aborts_witness :
    coreLine 1 (initCore 1) [.str "x", .int 1, .int 2, .int 3, .int 5, .int 7] = none :=
  C3_short_line_aborts 1 (initCore 1) [.str "x", .int 1, .int 2, .int 3, .int 5, .int 7]
    (by decide) (by decide)

/-- **C6.** The derived time-per-step value accumulated into the `per_step`
statistics is `micros / max(steps, 1)`: for positive step counts it is
`micros / steps`, and for step count `0` the divisor is `1` (the raw micros
value unchanged).  The concrete conjuncts run one full record through the
summarizer: with `steps = 5, micros = 150` the per-step engine holds `30`;
with `steps = 0, micros = 150` it holds `150`. -/
theorem C6_micros_per_step :
    (∀ (num_steps : Int) (micros : ℚ),
      microsPerStep num_steps micros = micros / ((max num_steps 1 : Int) : ℚ)) ∧
    (((coreLine 1 (initCore 1)
        [.str "x", .int 1, .int 2, .int 3, .int 3, .int 5, .flt 150]).getD
      (initCore 1)).per_step.getD 0 RunningStat.init).mean = 30 ∧
    (((coreLine 1 (initCore 1)
        [.str "x", .int 1, .int 2, .int 3, .int 3, .int 0, .flt 150]).getD
      (initCore 1)).per_step.getD 0 RunningStat.init).mean = 150 := by
  refine ⟨?_, ?_, ?_⟩
  · intro num_steps micros
    unfold microsPerStep
    by_cases hpos : 0 < num_steps
    · rw [if_pos hpos, max_eq_left (by omega : (1 : Int) ≤ num_steps)]
    · rw [if_neg hpos, max_eq_right (by omega : num_steps ≤ (1 : Int))]
      norm_num
  · norm_num [coreLine, strategyStep, foldMO, initCore, updateNth, updAssoc,
      Detail.observe, microsPerStep, RunningStat.append, RunningStat.mean,
      Field.pyInt, Field.pyFloat, List.range_succ, RunningStat.init]
  · norm_num [coreLine, strategyStep, foldMO, initCore, updateNth, updAssoc,
      Detail.observe, microsPerStep, RunningStat.append, RunningStat.mean,
      Field.pyInt, Field.pyFloat, List.range_succ, RunningStat.init]

/-- **C8 (counterexample).** Scenario A's body line `"x\t1\t2\t3\t5\t150.0"`
has six fields.  With one strategy the code reads `int(fields[5])` — which is
`"150.0"` and fails `int()` — and would read `fields[6]`, which is absent; the
run aborts rather than succeeding as the claim states. -/
theorem C8_scenario_a_fails :
    coreLine 1 (initCore 1) [.str "x", .int 1, .int 2, .int 3, .int 5, .flt 150] = none :=
  rfl

/-- **C8 (amended).** With the body line carrying the full 7 fields the schema
requires — `"x\t1\t2\t3\t3\t5\t150.0"`, i.e. `sol = 3` at index 4, steps `5`,
micros `150.0` — summarizing succeeds, `steps[0]` holds the single observation
`5`, and the overall (`total[0]`) engine has `mean() = 150` after one
observation. -/
theorem C8_scenario_a_amended :
    (coreLine 1 (initCore 1)
      [.str "x", .int 1, .int 2, .int 3, .int 3, .int 5, .flt 150]).isSome = true ∧
    (((coreLine 1 (initCore 1)
        [.str "x", .int 1, .int 2, .int 3, .int 3, .int 5, .flt 150]).getD
      (initCore 1)).steps.getD 0 RunningStat.init).k = 1 ∧
    (((coreLine 1 (initCore 1)
        [.str "x", .int 1, .int 2, .int 3, .int 3, .int 5, .flt 150]).getD
      (initCore 1)).steps.getD 0 RunningStat.init).mean = 5 ∧
    (((coreLine 1 (initCore 1)
        [.str "x", .int 1, .int 2, .int 3, .int 3, .int 5, .flt 150]).getD
      (initCore 1)).total.getD 0 RunningStat.init).k = 1 ∧
    (((coreLine 1 (initCore 1)
        [.str "x", .int 1, .int 2, .int 3, .int 3, .int 5, .flt 150]).getD
      (initCore 1)).total.getD 0 RunningStat.init).mean = 150 := by
  refine ⟨rfl, rfl, ?_, rfl, ?_⟩
  · norm_num [coreLine, strategyStep, foldMO, initCore, updateNth, updAssoc,
      Detail.observe, microsPerStep, RunningStat.append, RunningStat.mean,
      Field.pyInt, Field.pyFloat, List.range_succ, RunningStat.init]
  · norm_num [coreLine, strategyStep, foldMO, initCore, updateNth, updAssoc,
      Detail.observe, microsPerStep, RunningStat.append, RunningStat.mean,
      Field.pyInt, Field.pyFloat, List.range_succ, RunningStat.init]


/-! ### Fan-out invariant for the core summarizer (C4) -/

/-- One strategy step preserves lengths and the count identities
`total[i].k = Σ_sol detailed[i][sol].overall.k` and
`steps[i].k = Σ_sol detailed[i][sol].steps.k`. -/
lemma strategyStep_fanout (nstr : Nat) (fields : List Field) (sol : Int)
    (st st' : CoreState) (n : Nat) (hn : n < nstr)
    (h : strategyStep fields sol st n = some st')
    (hP : st.detailed.length = nstr ∧ st.steps.length = nstr ∧ st.total.length = nstr ∧
      ∀ i, (st.total.getD i RunningStat.init).k
            = ((st.detailed.getD i []).map (fun p => p.2.overall.k)).sum
        ∧ (st.steps.getD i RunningStat.init).k
            = ((st.detailed.getD i []).map (fun p => p.2.steps.k)).sum) :
    st'.detailed.length = nstr ∧ st'.steps.length = nstr ∧ st'.total.length = nstr ∧
    ∀ i, (st'.total.getD i RunningStat.init).k
          = ((st'.detailed.getD i []).map (fun p => p.2.overall.k)).sum
      ∧ (st'.steps.getD i RunningStat.init).k
          = ((st'.detailed.getD i []).map (fun p => p.2.steps.k)).sum := by
  obtain ⟨hd, hs, ht, hinv⟩ := hP
  unfold strategyStep at h
  split at h
  · exact Option.noConfusion h
  split at h
  · exact Option.noConfusion h
  split at h
  · exact Option.noConfusion h
  split at h
  · exact Option.noConfusion h
  · rw [Option.some.injEq] at h
    subst h
    refine ⟨by simp [updateNth_length, hd], by simp [updateNth_length, hs],
            by simp [updateNth_length, ht], ?_⟩
    intro i
    by_cases hi : i = n
    · subst hi
      rw [getD_updateNth_self _ _ _ _ (by omega),
          getD_updateNth_self _ _ _ _ (by omega),
          getD_updateNth_self _ _ _ _ (by omega)]
      constructor
      · rw [RunningStat.append_k,
          sum_updAssoc_nat Detail.init _ sol _ (fun p => p.overall.k)
            (fun a => rfl) rfl]
        exact congrArg (fun t => t + 1) (hinv i).1
      · rw [RunningStat.append_k,
          sum_updAssoc_nat Detail.init _ sol _ (fun p => p.steps.k)
            (fun a => rfl) rfl]
        exact congrArg (fun t => t + 1) (hinv i).2
    · rw [getD_updateNth_ne _ _ _ _ _ hi, getD_updateNth_ne _ _ _ _ _ hi,
          getD_updateNth_ne _ _ _ _ _ hi]
      exact hinv i

/-- One body line preserves the fan-out invariant. -/
lemma coreLine_fanout (nstr : Nat) (st st' : CoreState) (fields : List Field)
    (h : coreLine nstr st fields = some st')
    (hP : st.detailed.length = nstr ∧ st.steps.length = nstr ∧ st.total.length = nstr ∧
      ∀ i, (st.total.getD i RunningStat.init).k
            = ((st.detailed.getD i []).map (fun p => p.2.overall.k)).sum
        ∧ (st.steps.getD i RunningStat.init).k
            = ((st.detailed.getD i []).map (fun p => p.2.steps.k)).sum) :
    st'.detailed.length = nstr ∧ st'.steps.length = nstr ∧ st'.total.length = nstr ∧
    ∀ i, (st'.total.getD i RunningStat.init).k
          = ((st'.detailed.getD i []).map (fun p => p.2.overall.k)).sum
      ∧ (st'.steps.getD i RunningStat.init).k
          = ((st'.detailed.getD i []).map (fun p => p.2.steps.k)).sum := by
  unfold coreLine at h
  split at h
  · exact Option.noConfusion h
  split at h
  · exact Option.noConfusion h
  · rename_i f hf4 sol hpi
    exact foldMO_inv_mem _ (strategyStep fields sol) (List.range nstr)
      (fun s a s' ha hss hps =>
        strategyStep_fanout nstr fields sol s s' a (List.mem_range.1 ha) hss hps)
      st st' h hP

/-- **C4.** After the stream ends, for every strategy index `i`, the overall
engine's count `total[i].k` equals the sum over the observed solution counts of
the per-solution-count `detailed[i][sol].overall` counts, and likewise
`steps[i].k` equals the sum of the `detailed[i][sol].steps` counts: every
record's observation reaches both grouping paths. -/
theorem C4_fanout_counts (nstr : Nat) (body : List (List Field)) (st : CoreState)
    (h : coreLines nstr (initCore nstr) body = some st) :
    ∀ i, (st.total.getD i RunningStat.init).k
          = ((st.detailed.getD i []).map (fun p => p.2.overall.k)).sum
      ∧ (st.steps.getD i RunningStat.init).k
          = ((st.detailed.getD i []).map (fun p => p.2.steps.k)).sum := by
  have base : (initCore nstr).detailed.length = nstr ∧
      (initCore nstr).steps.length = nstr ∧ (initCore nstr).total.length = nstr ∧
      ∀ i, ((initCore nstr).total.getD i RunningStat.init).k
            = (((initCore nstr).detailed.getD i []).map (fun p => p.2.overall.k)).sum
        ∧ ((initCore nstr).steps.getD i RunningStat.init).k
            = (((initCore nstr).detailed.getD i []).map (fun p => p.2.steps.k)).sum := by
    refine ⟨by simp [initCore], by simp [initCore], by simp [initCore], ?_⟩
    intro i
    simp [initCore, getD_replicate', RunningStat.init]
  exact (foldMO_inv_mem _ (coreLine nstr) body
    (fun s a s' _ hla hps => coreLine_fanout nstr s s' a hla hps)
    (initCore nstr) st h base).2.2.2

/-- Witness for C4: one strategy, one record, evaluated concretely. -/
theorem C4_fanout_counts_witness :
    ((((coreLines 1 (initCore 1)
        [[.str "x", .int 1, .int 2, .int 3, .int 3, .int 5, .flt 150]]).getD
      (initCore 1)).total.getD 0 RunningStat.init).k
      = ((((coreLines 1 (initCore 1)
        [[.str "x", .int 1, .int 2, .int 3, .int 3, .int 5, .flt 150]]).getD
      (initCore 1)).detailed.getD 0 []).map (fun p => p.2.overall.k)).sum)
    ∧ ((((coreLines 1 (initCore 1)
        [[.str "x", .int 1, .int 2, .int 3, .int 3, .int 5, .flt 150]]).getD
      (initCore 1)).steps.getD 0 RunningStat.init).k
      = ((((coreLines 1 (initCore 1)
        [[.str "x", .int 1, .int 2, .int 3, .int 3, .int 5, .flt 150]]).getD
      (initCore 1)).detailed.getD 0 []).map (fun p => p.2.steps.k)).sum) :=
  C4_fanout_counts 1 [[.str "x", .int 1, .int 2, .int 3, .int 3, .int 5, .flt 150]]
    ((coreLines 1 (initCore 1)
        [[.str "x", .int 1, .int 2, .int 3, .int 3, .int 5, .flt 150]]).getD
      (initCore 1)) rfl 0


/-! ### Lemmas for the improper summarizer and report assembly -/

lemma pyModify_length {α : Type} (l l' : List α) (i : Int) (f : α → α)
    (h : pyModify l i f = some l') : l'.length = l.length := by
  unfold pyModify at h
  split at h
  · rw [Option.some.injEq] at h
    subst h
    exact updateNth_length _ _ _
  split at h
  · rw [Option.some.injEq] at h
    subst h
    exact updateNth_length _ _ _
  · exact Option.noConfusion h

lemma ImpAll.observe_length (a a' : ImpAll) (solns holes : Int)
    (h : a.observe solns holes = some a') : a'.by_solns.length = a.by_solns.length := by
  unfold ImpAll.observe at h
  split at h
  · exact Option.noConfusion h
  · rename_i bs heq
    rw [Option.some.injEq] at h
    subst h
    exact pyModify_length _ _ _ _ heq

/-- Every body line preserves the number of `by_solns` buckets on the `all`
grouping. -/
lemma impLine_bysolns_length (max_solns : Nat) (st st' : ImpState) (fields : List Field)
    (h : impLine max_solns st fields = some st')
    (hP : st.all.by_solns.length = max_solns) : st'.all.by_solns.length = max_solns := by
  unfold impLine at h
  split at h
  · rename_i sym f1 f2 h012
    split at h
    · rename_i solns holes hi1
      split at h
      · rename_i all' syms' hobs hupd
        rw [Option.some.injEq] at h
        subst h
        rw [ImpAll.observe_length _ _ _ _ hobs]
        exact hP
      · exact Option.noConfusion h
    · exact Option.noConfusion h
  · exact Option.noConfusion h

lemma getD_map_range {α : Type} (f : Nat → α) (n i : Nat) (d : α) (hi : i < n) :
    ((List.range n).map f).getD i d = f i := by
  rw [List.getD_eq_getElem?_getD, List.getElem?_map, List.getElem?_range hi]
  rfl

/-- **C7.** Report assembly walks every dimension combination defined by the
schema, not only observed ones.  For the core summarizer with an empty body,
`ForStrategy` is evaluated for every schema strategy `i < nstrategies`,
yielding an all-zero entry rather than an omission.  For the improper
summarizer, the `by_solns` buckets for all of `1..max_solns` exist after any
successfully processed body (length invariant), and an untouched bucket is the
empty statistic. -/
theorem C7_schema_walk (nstr max_solns : Nat) (body : List (List Field)) (st : ImpState)
    (h : impLines max_solns (initImp max_solns) body = some st) :
    (ConstructStrategies nstr
        ((coreLines nstr (initCore nstr) []).getD (initCore nstr))).length = nstr ∧
    (∀ i, i < nstr →
      (ConstructStrategies nstr
          ((coreLines nstr (initCore nstr) []).getD (initCore nstr))).getD i
        ⟨RunningStat.init, RunningStat.init, RunningStat.init, []⟩
        = ⟨RunningStat.init, RunningStat.init, RunningStat.init, []⟩) ∧
    st.all.by_solns.length = max_solns ∧
    (∀ j, j < max_solns →
      (initImp max_solns).all.by_solns.getD j ImpStat.init = ImpStat.init) := by
  refine ⟨by simp [ConstructStrategies], ?_, ?_, ?_⟩
  · intro i hi
    have hred : (coreLines nstr (initCore nstr) []).getD (initCore nstr) = initCore nstr :=
      rfl
    rw [hred, ConstructStrategies, getD_map_range _ _ _ _ hi]
    simp [ForStrategy, initCore, getD_replicate']
  · exact foldMO_inv_mem (fun s => s.all.by_solns.length = max_solns) _ body
      (fun s a s' _ hla hps => impLine_bysolns_length max_solns s s' a hla hps)
      (initImp max_solns) st h (by simp [initImp, ImpAll.init])
  · intro j hj
    exact getD_replicate' _ _ _

/-- Witness for C7: two schema strategies, three solution buckets, empty body. -/
theorem C7_schema_walk_witness :
    (initImp 3).all.by_solns.length = 3 :=
  (C7_schema_walk 2 3 [] (initImp 3) rfl).2.2.1


/-! ### Python negative-index lemmas (C9) -/

lemma pyModify_pos {α : Type} (l : List α) (i : Int) (f : α → α)
    (h0 : 0 ≤ i) (h1 : i < (l.length : Int)) :
    pyModify l i f = some (updateNth l i.toNat f) := by
  unfold pyModify
  rw [if_pos ⟨h0, h1⟩]

lemma pyModify_neg {α : Type} (l : List α) (i : Int) (f : α → α)
    (h0 : -(l.length : Int) ≤ i) (h1 : i < 0) :
    pyModify l i f = some (updateNth l (l.length - (-i).toNat) f) := by
  unfold pyModify
  rw [if_neg (by omega), if_pos ⟨h0, h1⟩]

lemma pyModify_oob_high {α : Type} (l : List α) (i : Int) (f : α → α)
    (h0 : (l.length : Int) ≤ i) : pyModify l i f = none := by
  unfold pyModify
  rw [if_neg (by omega), if_neg (by omega)]

/-- **C9.** In the improper summarizer, a record whose `solutions` field is `0`
is not rejected: its bucket index `0 - 1 = -1` wraps (Python negative indexing)
to the last bucket, the one intended for `max_solns`, which silently receives
the observation.  A record with `solutions > max_solns` aborts the run with an
index error.  Records with `1 ≤ solutions ≤ max_solns` land in the bucket for
their own solution count, leaving every other bucket untouched. -/
theorem C9_improper_neg_index (M : Nat) (hM : 1 ≤ M) (sym : Field) (hl : Int) :
    (∃ st, impLine M (initImp M) [sym, .int 0, .int hl] = some st ∧
      (st.all.by_solns.getD (M - 1) ImpStat.init).solns.k = 1 ∧
      (st.all.by_solns.getD (M - 1) ImpStat.init).solns.mean = 0 ∧
      ∀ j, j < M - 1 → (st.all.by_solns.getD j ImpStat.init).solns.k = 0) ∧
    (∀ s : Int, (M : Int) < s → impLine M (initImp M) [sym, .int s, .int hl] = none) ∧
    (∀ s : Int, 1 ≤ s → s ≤ (M : Int) →
      ∃ st, impLine M (initImp M) [sym, .int s, .int hl] = some st ∧
        (st.all.by_solns.getD (s - 1).toNat ImpStat.init).solns.k = 1 ∧
        (st.all.by_solns.getD (s - 1).toNat ImpStat.init).solns.mean = (s : ℚ) ∧
        ∀ j, j < M → j ≠ (s - 1).toNat →
          (st.all.by_solns.getD j ImpStat.init).solns.k = 0) := by
  have hlen : ((ImpAll.init M).by_solns.length : Int) = (M : Int) := by
    simp [ImpAll.init]
  refine ⟨?_, ?_, ?_⟩
  · -- solutions = 0: wraps to the last bucket
    have hobs : (ImpAll.init M).observe 0 hl
        = some ⟨(ImpAll.init M).overall.observe 0 hl,
            updateNth (List.replicate M ImpStat.init) (M - 1)
              (fun s => s.observe 0 hl)⟩ := by
      unfold ImpAll.observe
      rw [show (ImpAll.init M).by_solns = List.replicate M ImpStat.init from rfl,
        pyModify_neg _ _ _ (by simp; omega) (by omega)]
      norm_num
    have hupd : updAssocO (ImpAll.init M) [] sym (fun a => a.observe 0 hl)
        = some [(sym, ⟨(ImpAll.init M).overall.observe 0 hl,
            updateNth (List.replicate M ImpStat.init) (M - 1)
              (fun s => s.observe 0 hl)⟩)] := by
      unfold updAssocO
      rw [hobs]
    refine ⟨⟨⟨(ImpAll.init M).overall.observe 0 hl,
        updateNth (List.replicate M ImpStat.init) (M - 1) (fun s => s.observe 0 hl)⟩,
        [(sym, ⟨(ImpAll.init M).overall.observe 0 hl,
          updateNth (List.replicate M ImpStat.init) (M - 1)
            (fun s => s.observe 0 hl)⟩)]⟩, ?_, ?_, ?_, ?_⟩
    · unfold impLine
      simp only [List.get?_cons_zero, List.get?_cons_succ, Field.pyInt]
      rw [show (initImp M).all = ImpAll.init M from rfl, hobs,
        show (initImp M).symmetries = ([] : List (Field × ImpAll)) from rfl, hupd]
    · rw [getD_updateNth_self _ _ _ _ (by simp; omega), getD_replicate']
      rfl
    · rw [getD_updateNth_self _ _ _ _ (by simp; omega), getD_replicate']
      norm_num [ImpStat.observe, RunningStat.append, RunningStat.mean, RunningStat.init,
        ImpStat.init]
    · intro j hj
      rw [getD_updateNth_ne _ _ _ _ _ (by omega), getD_replicate']
      rfl
  · -- solutions > max_solns: IndexError
    intro s hs
    have hobs : (ImpAll.init M).observe s hl = none := by
      unfold ImpAll.observe
      rw [show (ImpAll.init M).by_solns = List.replicate M ImpStat.init from rfl,
        pyModify_oob_high _ _ _ (by simp; omega)]
    unfold impLine
    simp only [List.get?_cons_zero, List.get?_cons_succ, Field.pyInt]
    rw [show (initImp M).all = ImpAll.init M from rfl, hobs]
  · -- 1 ≤ solutions ≤ max_solns: the record's own bucket
    intro s hs1 hsM
    have hobs : (ImpAll.init M).observe s hl
        = some ⟨(ImpAll.init M).overall.observe s hl,
            updateNth (List.replicate M ImpStat.init) (s - 1).toNat
              (fun st => st.observe s hl)⟩ := by
      unfold ImpAll.observe
      rw [show (ImpAll.init M).by_solns = List.replicate M ImpStat.init from rfl,
        pyModify_pos _ _ _ (by omega) (by simp; omega)]
    have hupd : updAssocO (ImpAll.init M) [] sym (fun a => a.observe s hl)
        = some [(sym, ⟨(ImpAll.init M).overall.observe s hl,
            updateNth (List.replicate M ImpStat.init) (s - 1).toNat
              (fun st => st.observe s hl)⟩)] := by
      unfold updAssocO
      rw [hobs]
    refine ⟨⟨⟨(ImpAll.init M).overall.observe s hl,
        updateNth (List.replicate M ImpStat.init) (s - 1).toNat
          (fun st => st.observe s hl)⟩,
        [(sym, ⟨(ImpAll.init M).overall.observe s hl,
          updateNth (List.replicate M ImpStat.init) (s - 1).toNat
            (fun st => st.observe s hl)⟩)]⟩, ?_, ?_, ?_, ?_⟩
    · unfold impLine
      simp only [List.get?_cons_zero, List.get?_cons_succ, Field.pyInt]
      rw [show (initImp M).all = ImpAll.init M from rfl, hobs,
        show (initImp M).symmetries = ([] : List (Field × ImpAll)) from rfl, hupd]
    · rw [getD_updateNth_self _ _ _ _ (by simp; omega), getD_replicate']
      rfl
    · rw [getD_updateNth_self _ _ _ _ (by simp; omega), getD_replicate']
      norm_num [ImpStat.observe, RunningStat.append, RunningStat.mean, RunningStat.init,
        ImpStat.init]
    · intro j hjM hjne
      rw [getD_updateNth_ne _ _ _ _ _ hjne, getD_replicate']
      rfl

/-- Witness for C9: three buckets; a record with `solutions = 4 > 3` aborts. -/
theorem C9_improper_neg_index_witness :
    impLine 3 (initImp 3) [.str "a", .int 4, .int 7] = none :=
  (C9_improper_neg_index 3 (by decide) (.str "a") 7).2.1 4 (by decide)


/-! ### Cross-comparison matrix lemmas (C5, C10) -/

/-- Appending `0` to an engine with zero mean and zero `s` keeps both zero. -/
lemma RunningStat.append_zero_of_zero (rs : RunningStat) (hm : rs.m = 0) (hs : rs.s = 0) :
    (rs.append 0).m = 0 ∧ (rs.append 0).s = 0 := by
  rw [RunningStat.append_m, RunningStat.append_s, hm, hs]
  norm_num

/-- An engine with `s = 0` reports variance `0`. -/
lemma RunningStat.variance_of_s_zero (rs : RunningStat) (hs : rs.s = 0) :
    rs.variance = 0 := by
  unfold RunningStat.variance
  split
  · rw [hs]
    exact zero_div _
  · rfl

/-- Complete description of the inner `for m in range(r)` fold of the generator
summarizer: each cell `m < r` receives `time[n] - time[m]` and
`clues[n] - clues[m]`, cells beyond `r` are untouched. -/
lemma genCells_fold (time : List ℚ) (clues : List Int) (tn : ℚ) (cn : Int)
    (bg : List GenPair) :
    ∀ (r : Nat) (bg' : List GenPair),
      foldMO (genPairStep time clues tn cn) bg (List.range r) = some bg' →
      bg'.length = bg.length ∧
      (∀ j, r ≤ j → bg'.getD j GenPair.init = bg.getD j GenPair.init) ∧
      (∀ j, j < r → j < bg.length →
        ∃ tj cj, time.get? j = some tj ∧ clues.get? j = some cj ∧
          bg'.getD j GenPair.init
            = ⟨(bg.getD j GenPair.init).time.append (tn - tj),
               (bg.getD j GenPair.init).clues.append ((cn - cj : Int) : ℚ)⟩) := by
  intro r
  induction r with
  | zero =>
      intro bg' h
      simp only [List.range_zero, foldMO, Option.some.injEq] at h
      subst h
      exact ⟨rfl, fun j _ => rfl, fun j hj _ => absurd hj (by omega)⟩
  | succ r ih =>
      intro bg' h
      rw [List.range_succ, foldMO_append] at h
      cases hmid : foldMO (genPairStep time clues tn cn) bg (List.range r) with
      | none => rw [hmid] at h; exact Option.noConfusion h
      | some mid =>
          rw [hmid] at h
          simp only [Option.some_bind, foldMO] at h
          obtain ⟨hlen, hhigh, hlow⟩ := ih mid hmid
          cases hstep : genPairStep time clues tn cn mid r with
          | none => rw [hstep] at h; exact Option.noConfusion h
          | some bg2 =>
              rw [hstep] at h
              rw [Option.some.injEq] at h
              subst h
              unfold genPairStep at hstep
              split at hstep
              · rename_i tr cr htr hcr
                rw [Option.some.injEq] at hstep
                subst hstep
                refine ⟨by rw [updateNth_length, hlen], ?_, ?_⟩
                · intro j hj
                  rw [getD_updateNth_ne _ _ _ _ _ (by omega)]
                  exact hhigh j (by omega)
                · intro j hjr hjb
                  rcases Nat.lt_or_ge j r with hjr' | hjr'
                  · rw [getD_updateNth_ne _ _ _ _ _ (by omega)]
                    exact hlow j hjr' hjb
                  · have hjeq : j = r := by omega
                    subst hjeq
                    rw [getD_updateNth_self _ _ _ _ (by omega : j < mid.length)]
                    refine ⟨tr, cr, htr, hcr, ?_⟩
                    rw [hhigh j (by omega)]
              · exact Option.noConfusion hstep


/-- Complete description of the outer `for n in range(r)` fold of the generator
summarizer: each row `i < r` has its overall pair updated with `time[i]`,
`clues[i]`, and its `by_generator` row rebuilt by the inner fold from the
original row; rows beyond `r` are untouched. -/
lemma genRows_fold (g : Nat) (sym : Field) (time : List ℚ) (clues : List Int)
    (st : GenState) :
    ∀ (r : Nat) (st' : GenState),
      foldMO (genStep sym time clues g) st (List.range r) = some st' →
      st'.generators.length = st.generators.length ∧
      (∀ i, r ≤ i →
        st'.generators.getD i (GenAll.init g) = st.generators.getD i (GenAll.init g)) ∧
      (∀ i, i < r → i < st.generators.length →
        ∃ ti ci bg', time.get? i = some ti ∧ clues.get? i = some ci ∧
          foldMO (genPairStep time clues ti ci)
            ((st.generators.getD i (GenAll.init g)).by_generator) (List.range g)
            = some bg' ∧
          st'.generators.getD i (GenAll.init g)
            = ⟨⟨(st.generators.getD i (GenAll.init g)).overall.time.append ti,
                (st.generators.getD i (GenAll.init g)).overall.clues.append (ci : ℚ)⟩,
               bg'⟩) := by
  intro r
  induction r with
  | zero =>
      intro st' h
      simp only [List.range_zero, foldMO, Option.some.injEq] at h
      subst h
      exact ⟨rfl, fun i _ => rfl, fun i hi _ => absurd hi (by omega)⟩
  | succ r ih =>
      intro st' h
      rw [List.range_succ, foldMO_append] at h
      cases hmid : foldMO (genStep sym time clues g) st (List.range r) with
      | none => rw [hmid] at h; exact Option.noConfusion h
      | some mid =>
          rw [hmid] at h
          simp only [Option.some_bind, foldMO] at h
          obtain ⟨hlen, hhigh, hlow⟩ := ih mid hmid
          cases hstep : genStep sym time clues g mid r with
          | none => rw [hstep] at h; exact Option.noConfusion h
          | some st2 =>
              rw [hstep] at h
              rw [Option.some.injEq] at h
              subst h
              unfold genStep at hstep
              split at hstep
              · rename_i tr cr htr hcr
                split at hstep
                · exact Option.noConfusion hstep
                · rename_i bg' hbg
                  rw [Option.some.injEq] at hstep
                  subst hstep
                  rw [hhigh r (by omega)] at hbg
                  refine ⟨by rw [updateNth_length, hlen], ?_, ?_⟩
                  · intro i hi
                    rw [getD_updateNth_ne _ _ _ _ _ (by omega)]
                    exact hhigh i (by omega)
                  · intro i hir hib
                    rcases Nat.lt_or_ge i r with hir' | hir'
                    · rw [getD_updateNth_ne _ _ _ _ _ (by omega)]
                      exact hlow i hir' hib
                    · have hieq : i = r := by omega
                      subst hieq
                      rw [getD_updateNth_self _ _ _ _ (by omega : i < mid.generators.length)]
                      refine ⟨tr, cr, bg', htr, hcr, hbg, ?_⟩
                      rw [hhigh i (by omega)]
              · exact Option.noConfusion hstep


/-- One generator body line preserves the matrix invariant: every cell's count
grows by one and diagonal cells keep zero mean and zero `s`. -/
lemma genLine_matrix (g : Nat) (st st' : GenState) (fields : List Field) (c : Nat)
    (h : genLine g st fields = some st')
    (hP : st.generators.length = g ∧
      ∀ n, n < g →
        (st.generators.getD n (GenAll.init g)).by_generator.length = g ∧
        (∀ m, m < g →
          ((st.generators.getD n (GenAll.init g)).by_generator.getD m
              GenPair.init).time.k = c ∧
          ((st.generators.getD n (GenAll.init g)).by_generator.getD m
              GenPair.init).clues.k = c) ∧
        (((st.generators.getD n (GenAll.init g)).by_generator.getD n
            GenPair.init).time.m = 0 ∧
         ((st.generators.getD n (GenAll.init g)).by_generator.getD n
            GenPair.init).time.s = 0 ∧
         ((st.generators.getD n (GenAll.init g)).by_generator.getD n
            GenPair.init).clues.m = 0 ∧
         ((st.generators.getD n (GenAll.init g)).by_generator.getD n
            GenPair.init).clues.s = 0)) :
    st'.generators.length = g ∧
    ∀ n, n < g →
      (st'.generators.getD n (GenAll.init g)).by_generator.length = g ∧
      (∀ m, m < g →
        ((st'.generators.getD n (GenAll.init g)).by_generator.getD m
            GenPair.init).time.k = c + 1 ∧
        ((st'.generators.getD n (GenAll.init g)).by_generator.getD m
            GenPair.init).clues.k = c + 1) ∧
      (((st'.generators.getD n (GenAll.init g)).by_generator.getD n
          GenPair.init).time.m = 0 ∧
       ((st'.generators.getD n (GenAll.init g)).by_generator.getD n
          GenPair.init).time.s = 0 ∧
       ((st'.generators.getD n (GenAll.init g)).by_generator.getD n
          GenPair.init).clues.m = 0 ∧
       ((st'.generators.getD n (GenAll.init g)).by_generator.getD n
          GenPair.init).clues.s = 0) := by
  obtain ⟨hlen, hrow⟩ := hP
  unfold genLine at h
  split at h
  · exact Option.noConfusion h
  split at h
  · rename_i sym hsym tsc csc time clues htime hclues
    obtain ⟨hlen', hhigh, hlow⟩ := genRows_fold g sym time clues st g st' h
    refine ⟨by rw [hlen', hlen], ?_⟩
    intro n hn
    obtain ⟨hblen, hcells, hdiag⟩ := hrow n hn
    obtain ⟨ti, ci, bg', hti, hci, hbg, hrowi⟩ := hlow n hn (by omega)
    obtain ⟨hbglen, hbghigh, hbglow⟩ := genCells_fold time clues ti ci _ g bg' hbg
    have hby : (st'.generators.getD n (GenAll.init g)).by_generator = bg' := by
      rw [hrowi]
    rw [hby]
    refine ⟨hbglen.trans hblen, ?_, ?_⟩
    · intro m hm
      obtain ⟨tm2, cm2, htm, hcm, hcell⟩ := hbglow m hm (by omega)
      rw [hcell, RunningStat.append_k, RunningStat.append_k]
      exact ⟨by rw [(hcells m hm).1], by rw [(hcells m hm).2]⟩
    · obtain ⟨tn2, cn2, htn, hcn, hcell⟩ := hbglow n hn (by omega)
      have htieq : tn2 = ti := by
        rw [hti] at htn
        exact (Option.some.inj htn).symm
      have hcieq : cn2 = ci := by
        rw [hci] at hcn
        exact (Option.some.inj hcn).symm
      rw [hcell, htieq, hcieq, sub_self, sub_self]
      obtain ⟨hd1, hd2, hd3, hd4⟩ := hdiag
      obtain ⟨ht0, hs0⟩ := RunningStat.append_zero_of_zero _ hd1 hd2
      have hcast : (((0 : Int)) : ℚ) = 0 := by norm_num
      obtain ⟨hc0, hcs0⟩ := RunningStat.append_zero_of_zero _ hd3 hd4
      refine ⟨ht0, hs0, ?_, ?_⟩
      · show ((((st.generators.getD n (GenAll.init g)).by_generator.getD n
            GenPair.init).clues.append (((0 : Int)) : ℚ))).m = 0
        rw [hcast]
        exact hc0
      · show ((((st.generators.getD n (GenAll.init g)).by_generator.getD n
            GenPair.init).clues.append (((0 : Int)) : ℚ))).s = 0
        rw [hcast]
        exact hcs0
  · exact Option.noConfusion h


/-- **C5.** In the generator cross-comparison summarizer every record
accumulates `value[n] - value[m]` into the cell addressed by the ordered pair
`(n, m)` for every ordered pair of generators including `n = m`: after any
successfully processed body, every cell of the `g × g` matrix (for both the
time and the clues metric) holds exactly one observation per record, and every
diagonal cell `(n, n)` has `mean() = 0` and `variance() = 0`. -/
theorem C5_cross_matrix (g : Nat) (body : List (List Field)) (st : GenState)
    (h : genLines g (initGen g) body = some st) :
    ∀ n m, n < g → m < g →
      ((st.generators.getD n (GenAll.init g)).by_generator.getD m
          GenPair.init).time.k = body.length ∧
      ((st.generators.getD n (GenAll.init g)).by_generator.getD m
          GenPair.init).clues.k = body.length ∧
      (n = m →
        ((st.generators.getD n (GenAll.init g)).by_generator.getD n
            GenPair.init).time.mean = 0 ∧
        ((st.generators.getD n (GenAll.init g)).by_generator.getD n
            GenPair.init).time.variance = 0 ∧
        ((st.generators.getD n (GenAll.init g)).by_generator.getD n
            GenPair.init).clues.mean = 0 ∧
        ((st.generators.getD n (GenAll.init g)).by_generator.getD n
            GenPair.init).clues.variance = 0) := by
  have base : (initGen g).generators.length = g ∧
      ∀ n, n < g →
        ((initGen g).generators.getD n (GenAll.init g)).by_generator.length = g ∧
        (∀ m, m < g →
          (((initGen g).generators.getD n (GenAll.init g)).by_generator.getD m
              GenPair.init).time.k = 0 ∧
          (((initGen g).generators.getD n (GenAll.init g)).by_generator.getD m
              GenPair.init).clues.k = 0) ∧
        ((((initGen g).generators.getD n (GenAll.init g)).by_generator.getD n
            GenPair.init).time.m = 0 ∧
         (((initGen g).generators.getD n (GenAll.init g)).by_generator.getD n
            GenPair.init).time.s = 0 ∧
         (((initGen g).generators.getD n (GenAll.init g)).by_generator.getD n
            GenPair.init).clues.m = 0 ∧
         (((initGen g).generators.getD n (GenAll.init g)).by_generator.getD n
            GenPair.init).clues.s = 0) := by
    refine ⟨by simp [initGen], ?_⟩
    intro n hn
    rw [show (initGen g).generators = List.replicate g (GenAll.init g) from rfl,
      getD_replicate']
    refine ⟨by simp [GenAll.init], ?_, ?_⟩
    · intro m hm
      rw [show (GenAll.init g).by_generator = List.replicate g GenPair.init from rfl,
        getD_replicate']
      exact ⟨rfl, rfl⟩
    · rw [show (GenAll.init g).by_generator = List.replicate g GenPair.init from rfl,
        getD_replicate']
      exact ⟨rfl, rfl, rfl, rfl⟩
  have hP := foldMO_inv_count _ (genLine g)
    (fun s a s' c hla hps => genLine_matrix g s s' a c hla hps)
    body (initGen g) st 0 h base
  rw [Nat.zero_add] at hP
  intro n m hn hm
  obtain ⟨hblen, hcells, hdiag⟩ := hP.2 n hn
  refine ⟨(hcells m hm).1, (hcells m hm).2, ?_⟩
  intro hnm
  obtain ⟨hd1, hd2, hd3, hd4⟩ := hdiag
  exact ⟨hd1, RunningStat.variance_of_s_zero _ hd2, hd3,
    RunningStat.variance_of_s_zero _ hd4⟩

/-- Witness for C5: two generators, one record; cell `(0, 0)` evaluated. -/
theorem C5_cross_matrix_witness :
    (((((genLines 2 (initGen 2)
          [[.str "c", .int 9, .int 20, .flt 4000, .int 22, .flt 6000]]).getD
        (initGen 2)).generators.getD 0 (GenAll.init 2)).by_generator.getD 0
        GenPair.init).time.k
      = [[Field.str "c", Field.int 9, Field.int 20, Field.flt 4000, Field.int 22,
          Field.flt 6000]].length) ∧
    (((((genLines 2 (initGen 2)
          [[.str "c", .int 9, .int 20, .flt 4000, .int 22, .flt 6000]]).getD
        (initGen 2)).generators.getD 0 (GenAll.init 2)).by_generator.getD 0
        GenPair.init).clues.k
      = [[Field.str "c", Field.int 9, Field.int 20, Field.flt 4000, Field.int 22,
          Field.flt 6000]].length) ∧
    ((0 : Nat) = 0 →
      ((((genLines 2 (initGen 2)
            [[.str "c", .int 9, .int 20, .flt 4000, .int 22, .flt 6000]]).getD
          (initGen 2)).generators.getD 0 (GenAll.init 2)).by_generator.getD 0
          GenPair.init).time.mean = 0 ∧
      ((((genLines 2 (initGen 2)
            [[.str "c", .int 9, .int 20, .flt 4000, .int 22, .flt 6000]]).getD
          (initGen 2)).generators.getD 0 (GenAll.init 2)).by_generator.getD 0
          GenPair.init).time.variance = 0 ∧
      ((((genLines 2 (initGen 2)
            [[.str "c", .int 9, .int 20, .flt 4000, .int 22, .flt 6000]]).getD
          (initGen 2)).generators.getD 0 (GenAll.init 2)).by_generator.getD 0
          GenPair.init).clues.mean = 0 ∧
      ((((genLines 2 (initGen 2)
            [[.str "c", .int 9, .int 20, .flt 4000, .int 22, .flt 6000]]).getD
          (initGen 2)).generators.getD 0 (GenAll.init 2)).by_generator.getD 0
          GenPair.init).clues.variance = 0) :=
  C5_cross_matrix 2 [[.str "c", .int 9, .int 20, .flt 4000, .int 22, .flt 6000]]
    ((genLines 2 (initGen 2)
        [[.str "c", .int 9, .int 20, .flt 4000, .int 22, .flt 6000]]).getD
      (initGen 2)) rfl 0 0 (by decide) (by decide)


/-! ### Unit scaling of time values (C10) -/

lemma mapMO_map {α β γ : Type} (f : α → Option β) (h : β → γ) :
    ∀ l : List α, mapMO (fun a => (f a).map h) l = (mapMO f l).map (List.map h) := by
  intro l
  induction l with
  | nil => rfl
  | cons a t ih =>
      simp only [mapMO, ih]
      cases f a with
      | none => rfl
      | some b =>
          cases mapMO f t with
          | none => rfl
          | some r => rfl

/-- `parseTimes` is the raw parse (`float(fields[n])` over the odd indices from
3) post-composed with division by `1000`. -/
lemma parseTimes_eq (fields : List Field) :
    parseTimes fields
      = (mapMO (fun i => (fields.get? i).bind Field.pyFloat)
          (range2 3 fields.length)).map (List.map (fun v => v / 1000)) := by
  unfold parseTimes
  rw [← mapMO_map]
  congr 1
  funext i
  cases fields.get? i with
  | none => rfl
  | some f => cases f <;> rfl

/-- **C10.** Every time value the generator summarizer accumulates derives from
the list produced by dividing each raw parsed time field by `1000.0`: whenever
the time comprehension succeeds, its result is exactly the raw parses mapped
through `v ↦ v / 1000`.  Concretely, after one record with raw time fields
`4000.0` and `6000.0`, generator 0's overall time mean is `4000 / 1000` and the
pairwise cell `(0, 1)` holds the scaled difference `(4000 - 6000) / 1000`. -/
theorem C10_time_unit_scaling :
    (∀ (fields : List Field) (ts : List ℚ), parseTimes fields = some ts →
      ∃ raws, mapMO (fun i => (fields.get? i).bind Field.pyFloat)
          (range2 3 fields.length) = some raws ∧
        ts = raws.map (fun v => v / 1000)) ∧
    ((((genLines 2 (initGen 2)
          [[.str "c", .int 9, .int 20, .flt 4000, .int 22, .flt 6000]]).getD
        (initGen 2)).generators.getD 0 (GenAll.init 2)).overall.time.mean
      = 4000 / 1000) ∧
    (((((genLines 2 (initGen 2)
          [[.str "c", .int 9, .int 20, .flt 4000, .int 22, .flt 6000]]).getD
        (initGen 2)).generators.getD 0 (GenAll.init 2)).by_generator.getD 1
        GenPair.init).time.mean
      = (4000 - 6000) / 1000) := by
  refine ⟨?_, ?_, ?_⟩
  · intro fields ts hts
    rw [parseTimes_eq] at hts
    cases hraw : mapMO (fun i => (fields.get? i).bind Field.pyFloat)
        (range2 3 fields.length) with
    | none => rw [hraw] at hts; exact Option.noConfusion hts
    | some raws =>
        rw [hraw] at hts
        exact ⟨raws, rfl, (Option.some.inj hts).symm⟩
  · norm_num [genLines, genLine, genStep, genPairStep, foldMO, mapMO, initGen,
      GenAll.init, GenPair.init, parseTimes, parseClues, range2, updateNth, updAssoc,
      RunningStat.append, RunningStat.mean, RunningStat.init, Field.pyInt,
      Field.pyFloat, List.range_succ]
  · norm_num [genLines, genLine, genStep, genPairStep, foldMO, mapMO, initGen,
      GenAll.init, GenPair.init, parseTimes, parseClues, range2, updateNth, updAssoc,
      RunningStat.append, RunningStat.mean, RunningStat.init, Field.pyInt,
      Field.pyFloat, List.range_succ]

/-- Witness for C10 at the concrete record: the raw parse exists and the
scaled list is its image under division by `1000`. -/
theorem C10_time_unit_scaling_witness :
    ∃ raws, mapMO (fun i => (([Field.str "c", Field.int 9, Field.int 20,
          Field.flt 4000, Field.int 22, Field.flt 6000].get? i)).bind Field.pyFloat)
        (range2 3 [Field.str "c", Field.int 9, Field.int 20, Field.flt 4000,
          Field.int 22, Field.flt 6000].length) = some raws ∧
      (parseTimes [Field.str "c", Field.int 9, Field.int 20, Field.flt 4000,
          Field.int 22, Field.flt 6000]).getD []
        = raws.map (fun v => v / 1000) :=
  C10_time_unit_scaling.1
    [Field.str "c", Field.int 9, Field.int 20, Field.flt 4000, Field.int 22,
      Field.flt 6000]
    ((parseTimes [Field.str "c", Field.int 9, Field.int 20, Field.flt 4000,
        Field.int 22, Field.flt 6000]).getD []) rfl

end Sudoku
